import Mathlib

/-!
# Verification of the AndroidEmulatorWatcher streaming core

A shallow embedding of `src/emulator_watcher/adb_service.py` (the
`ADBService` supervisor, its device-listing parser, the per-device frame
worker loop) together with the helpers from the Python standard library
that the source relies on (`str.strip`, `str.split`, `int(...)`,
`bytes.replace`).  Bytes are modelled as `List Nat`, Python exceptions as
`Except Unit`, and the supervisor's mutable state as an explicit record
threaded through the operations.
-/

namespace EmulatorWatcher

/-! ## Python string primitives used by the source -/

/-- Python's notion of an ASCII whitespace character, as used by
`str.strip()` and `str.split()` with no arguments. -/
def pyIsSpace (c : Char) : Bool :=
  c == ' ' || c == '\t' || c == '\n' || c == '\r' ||
  c == Char.ofNat 11 || c == Char.ofNat 12

/-- Python `str.strip()`: drop leading and trailing whitespace. -/
def pyStrip (s : String) : String :=
  String.mk (((s.toList.dropWhile pyIsSpace).reverse.dropWhile pyIsSpace).reverse)

/-- Worker for `pySplit`: scans the character list, accumulating the
current (reversed) token in `acc`, emitting it when whitespace or the end
of the input is reached. -/
def splitWsAux : List Char → List Char → List (List Char)
  | [], acc => if acc = [] then [] else [acc.reverse]
  | c :: rest, acc =>
    if pyIsSpace c then
      if acc = [] then splitWsAux rest []
      else acc.reverse :: splitWsAux rest []
    else splitWsAux rest (c :: acc)

/-- Python `str.split()` with no arguments: split on runs of whitespace,
producing no empty tokens. -/
def pySplit (s : String) : List String :=
  (splitWsAux s.toList []).map String.mk

/-- Python's `needle in hay` substring test. -/
def pyContains (hay needle : String) : Bool :=
  decide (needle.toList <:+: hay.toList)

/-- Structural prefix test on characters (used for `str.startswith`). -/
def charsStartWith : List Char → List Char → Bool
  | _, [] => true
  | [], _ :: _ => false
  | c :: cs, p :: ps => c == p && charsStartWith cs ps

/-- Python's `s.startswith(pre)`. -/
def pyStartsWith (s pre : String) : Bool :=
  charsStartWith s.toList pre.toList

/-! ## Python `int(...)` on strings

`int(suffix)` strips surrounding whitespace, accepts an optional sign and
then a nonempty digit run in which single underscores may separate
digits; anything else raises `ValueError`, modelled as `none`. -/

/-- Accumulate the value of the remaining digit characters, allowing a
single `_` between two digits (Python's numeric-literal grammar). -/
def pyDigitsAux : List Char → Nat → Option Nat
  | [], acc => some acc
  | c :: rest, acc =>
    if c.isDigit then pyDigitsAux rest (acc * 10 + (c.toNat - 48))
    else if c = '_' then
      match rest with
      | [] => none
      | d :: _ => if d.isDigit then pyDigitsAux rest acc else none
    else none

/-- Value of a nonempty digit run that must start with a digit. -/
def pyDigits : List Char → Option Nat
  | [] => none
  | c :: rest => if c.isDigit then pyDigitsAux rest (c.toNat - 48) else none

/-- Python `int(s)` for a decimal string, `none` on `ValueError`. -/
def pyIntOfString? (s : String) : Option Int :=
  let cs := ((s.toList.dropWhile pyIsSpace).reverse.dropWhile pyIsSpace).reverse
  match cs with
  | '+' :: rest => (pyDigits rest).map (fun n => (n : Int))
  | '-' :: rest => (pyDigits rest).map (fun n => -(n : Int))
  | rest => (pyDigits rest).map (fun n => (n : Int))

/-! ## Data model (`models.py`) -/

/-- The `EmulatorDescriptor` record: serial identifier plus the port derived from it. -/
structure EmulatorDescriptor where
  serial : String
  port : Int
deriving DecidableEq, Repr

/-- The `RunResult` record: outcome of one remote command execution. -/
structure RunResult where
  command : String
  stdout : List Nat
  stderr : List Nat
  exitCode : Int
deriving DecidableEq, Repr

/-- Property `RunResult.ok`: derived success flag, exit code zero. -/
def RunResult.ok (r : RunResult) : Bool :=
  r.exitCode == 0

/-! ## Port derivation (`_serial_to_port`) -/

/-- Worker for `serial.split("-", maxsplit=1)`: splits at the first `-`
only, so the result has one or two pieces. -/
def splitDashOnceAux : List Char → List Char → List String
  | [], acc => [String.mk acc.reverse]
  | c :: rest, acc =>
    if c = '-' then [String.mk acc.reverse, String.mk rest]
    else splitDashOnceAux rest (c :: acc)

/-- Python `serial.split("-", maxsplit=1)`. -/
def pySplitDashOnce (s : String) : List String :=
  splitDashOnceAux s.toList []

/-- Function `_serial_to_port`: suffix after the first `-` (whole string when no
dash), parsed with `int(...)`; `ValueError` is caught and yields -1. -/
def serial_to_port (serial : String) : Int :=
  let suffix := (pySplitDashOnce serial).getLastD serial
  match pyIntOfString? suffix with
  | some n => n
  | none => -1

/-- Spec-side reading of the port rule: "take the substring after the
first `-` in the serial".  Written independently of `pySplitDashOnce`,
via a direct scan to the first dash. -/
def specSuffixAfterFirstDash (s : String) : String :=
  match s.toList.dropWhile (fun c => c != '-') with
  | [] => s
  | _ :: t => String.mk t


/-! ## Device listing (`ADBService.list_emulators`)

The embedding starts from the decoded stdout already split into lines
(`result.stdout.decode(...).splitlines()`); the claims about the parser
are stated over that line list.  The loop body strips the line, skips it
when it is blank or lacks the substring `"device"`, and then executes
`serial, status = line.split()` — an unpacking that raises `ValueError`
(modelled by `Except.error ()`) unless the split has exactly two
tokens. -/

/-- One iteration of the listing loop: `some d` when the line yields a
descriptor, `none` when it is skipped, `Except.error` when the
two-target unpacking of `line.split()` raises. -/
def parseDeviceLine (line : String) : Except Unit (Option EmulatorDescriptor) :=
  let l := pyStrip line
  if l = "" then .ok none
  else if ¬ pyContains l "device" then .ok none
  else match pySplit l with
    | [serial, status] =>
      if ¬ pyStartsWith serial "emulator-" ∨ status ≠ "device" then .ok none
      else .ok (some ⟨serial, serial_to_port serial⟩)
    | _ => .error ()

/-- The listing loop over the lines after the header. -/
def listEmulatorsGo : List String → Except Unit (List EmulatorDescriptor)
  | [] => .ok []
  | line :: rest => do
    let d? ← parseDeviceLine line
    let ds ← listEmulatorsGo rest
    match d? with
    | some d => .ok (d :: ds)
    | none => .ok ds

/-- Operation `ADBService.list_emulators`, from the decoded stdout lines on: the
first line (header) is dropped, the remaining lines are folded through
`parseDeviceLine`. -/
def list_emulators (lines : List String) : Except Unit (List EmulatorDescriptor) :=
  listEmulatorsGo (lines.drop 1)

/-- Spec-side reading of a valid listing line: exactly two
whitespace-separated tokens, the first prefixed `emulator-`, the second
exactly `device`. -/
def specValidLine (line : String) : Option EmulatorDescriptor :=
  match pySplit line with
  | [serial, status] =>
    if pyStartsWith serial "emulator-" && status == "device" then
      some ⟨serial, serial_to_port serial⟩
    else none
  | _ => none

/-- Spec-side reading of the whole listing: descriptors for exactly the
valid lines after the header. -/
def specDescriptors (lines : List String) : List EmulatorDescriptor :=
  (lines.drop 1).filterMap specValidLine

/-! ## Newline normalization (`result.stdout.replace(b"\r\r\n", b"\n")`)

Bytes are `List Nat`; 13 is CR, 10 is LF.  Python's `bytes.replace`
substitutes non-overlapping occurrences scanning left to right, which for
the pattern CR CR LF is the following recursion. -/

/-- Python `stdout.replace(b"\r\r\n", b"\n")`: scan left to right; when the
next three bytes are CR CR LF emit a single LF and continue after them,
otherwise emit the next byte unchanged. -/
def replaceCRCRLF : List Nat → List Nat
  | [] => []
  | [b] => [b]
  | [b, c] => [b, c]
  | b :: c :: d :: rest =>
    if b = 13 ∧ c = 13 ∧ d = 10 then 10 :: replaceCRCRLF rest
    else b :: replaceCRCRLF (c :: d :: rest)

/-- Number of (non-overlapping, left-to-right) occurrences of CR CR LF
that the replacement rewrites. -/
def countCRCRLF : List Nat → Nat
  | [] => 0
  | [_] => 0
  | [_, _] => 0
  | b :: c :: d :: rest =>
    if b = 13 ∧ c = 13 ∧ d = 10 then countCRCRLF rest + 1
    else countCRCRLF (c :: d :: rest)

/-! ## The frame worker (`ADBService._frame_worker`)

The loop interacts with its environment through the stop event (is it
set when the `while` condition is checked at iteration `i`?) and the
remote executor (what does `ssh_session.run` do at the `i`-th call?).
`run` either returns a `RunResult` or raises, modelled by
`Except Unit RunResult`; an exception is not caught anywhere in
`_frame_worker`, so it ends the loop abnormally.  The loop itself is
unrolled for `fuel` iterations, recording the observable effect of each
iteration (a `FrameEvent` pushed onto the queue, or a `logger.error`
call). -/

/-- Observable effect of one loop iteration. -/
inductive WorkerEffect where
  /-- A `FrameEvent` with the given (already normalized) payload was put
  on the shared frame queue. -/
  | frame (payload : List Nat)
  /-- Call to `logger.error` was made with the given stderr bytes. -/
  | logged (stderr : List Nat)
deriving DecidableEq, Repr

/-- How an unrolled worker execution ended. -/
inductive WorkerOutcome where
  /-- The loop condition observed the stop event and the function
  returned normally. -/
  | exited (effects : List WorkerEffect)
  /-- The fuel ran out with the loop still running. -/
  | running (effects : List WorkerEffect)
  /-- Call `ssh_session.run` raised; the exception propagates out of the
  loop and the worker dies abnormally. -/
  | raised (effects : List WorkerEffect)
deriving DecidableEq, Repr

/-- Prepend one iteration's effect to an outcome's effect trace. -/
def WorkerOutcome.consEff (e : WorkerEffect) : WorkerOutcome → WorkerOutcome
  | .exited es => .exited (e :: es)
  | .running es => .running (e :: es)
  | .raised es => .raised (e :: es)

/-- Did the execution end with an exception escaping the loop? -/
def WorkerOutcome.isRaised : WorkerOutcome → Bool
  | .raised _ => true
  | _ => false

/-- The body of one `_frame_worker` iteration, given the `RunResult`
returned by `ssh_session.run`: on `result.ok and result.stdout` the
normalized payload is queued, otherwise the failure is logged. -/
def frameWorkerIter (r : RunResult) : WorkerEffect :=
  if r.ok && !r.stdout.isEmpty then .frame (replaceCRCRLF r.stdout)
  else .logged r.stderr

/-- Loop `_frame_worker` unrolled for `fuel` iterations starting at iteration
index `i`: `stopSet i` is the value of `stop_event.is_set()` at the top
of iteration `i`, and `runs i` is the behaviour of the `i`-th
`ssh_session.run` call. -/
def frame_worker (stopSet : Nat → Bool) (runs : Nat → Except Unit RunResult) :
    Nat → Nat → WorkerOutcome
  | 0, _ => .running []
  | fuel + 1, i =>
    if stopSet i then .exited []
    else
      match runs i with
      | .error _ => .raised []
      | .ok r => (frame_worker stopSet runs fuel (i + 1)).consEff (frameWorkerIter r)

/-! ## Supervisor state (`ADBService` lifecycle operations)

The mutable fields of `ADBService` that the lifecycle operations touch:
the `serial → _WorkerHandle` insertion-ordered dictionary (an
association list), the shared frame queue, the poll interval, plus the
set of stop events that have been signalled.  Fresh stop events are
numbered by `nextEventId`.  All dictionary operations happen under the
service's lock in the source; the claims considered here are about the
sequential state transformations. -/

/-- The `_WorkerHandle` record: descriptor plus the identity of its stop event (the
thread object itself carries no further state the claims need). -/
structure WorkerHandle where
  descriptor : EmulatorDescriptor
  stopEventId : Nat
deriving DecidableEq, Repr

/-- The supervisor-relevant state of an `ADBService` instance. -/
structure ADBServiceState where
  /-- The `self._workers` dict: insertion-ordered, keys unique. -/
  workers : List (String × WorkerHandle)
  /-- The shared `frame_queue` contents. -/
  frame_queue : List WorkerEffect
  /-- The poll interval (abstract time units). -/
  interval : Nat
  /-- Stop events that have been `set()`. -/
  signalled : List Nat
  /-- Source of fresh stop-event identities. -/
  nextEventId : Nat
deriving DecidableEq, Repr

/-- A freshly constructed service: empty dict, empty queue, default
interval. -/
def initState : ADBServiceState :=
  { workers := [], frame_queue := [], interval := 1, signalled := [], nextEventId := 0 }

/-- Membership test `serial in self._workers`. -/
def containsKey (ws : List (String × WorkerHandle)) (k : String) : Bool :=
  ws.any (fun e => e.1 == k)

/-- Operation `self._workers.pop(serial, None)`: the removed handle (if any) and
the remaining dictionary. -/
def popKey (ws : List (String × WorkerHandle)) (k : String) :
    Option WorkerHandle × List (String × WorkerHandle) :=
  match ws with
  | [] => (none, [])
  | e :: rest =>
    if e.1 = k then (some e.2, rest)
    else
      let r := popKey rest k
      (r.1, e :: r.2)

/-- Operation `ADBService.start_stream`: no-op when a handle for the serial is
already tracked; otherwise record a fresh handle (dict insertion appends
a new key) and spawn the worker. -/
def start_stream (st : ADBServiceState) (d : EmulatorDescriptor) : ADBServiceState :=
  if containsKey st.workers d.serial then st
  else
    { st with
      workers := st.workers ++ [(d.serial, ⟨d, st.nextEventId⟩)],
      nextEventId := st.nextEventId + 1 }

/-- Operation `ADBService.stop_stream`: pop the handle (no-op when absent), then
signal its stop event and join the thread with a bounded timeout.
`workerEnded` records whether the join saw the thread finish within the
grace period; the source never inspects the join's outcome, so it is
unused. -/
def stop_stream (st : ADBServiceState) (serial : String) (workerEnded : Bool) :
    ADBServiceState :=
  match popKey st.workers serial with
  | (none, _) => st
  | (some h, rest) =>
    let _ := workerEnded
    { st with workers := rest, signalled := h.stopEventId :: st.signalled }

/-- Operation `ADBService.stop_all`: snapshot the current serials under the lock,
then stop each one. -/
def stop_all (st : ADBServiceState) (ended : String → Bool) : ADBServiceState :=
  (st.workers.map Prod.fst).foldl (fun s serial => stop_stream s serial (ended serial)) st

/-- Operation `ADBService.active_serials`: snapshot of the tracked serials. -/
def active_serials (st : ADBServiceState) : List String :=
  st.workers.map Prod.fst

/-- The lifecycle operations a caller can invoke on the supervisor. -/
inductive SupOp where
  | start (d : EmulatorDescriptor)
  | stop (serial : String) (ended : Bool)
  | stopAll (ended : String → Bool)

/-- Apply one lifecycle operation. -/
def applyOp (st : ADBServiceState) : SupOp → ADBServiceState
  | .start d => start_stream st d
  | .stop serial ended => stop_stream st serial ended
  | .stopAll ended => stop_all st ended

/-- Run a sequence of lifecycle operations from a state. -/
def runOps (st : ADBServiceState) (ops : List SupOp) : ADBServiceState :=
  ops.foldl applyOp st

/-- The dictionary invariant: each serial is tracked at most once. -/
def keysNodup (st : ADBServiceState) : Prop :=
  (st.workers.map Prod.fst).Nodup

/-! ## Dictionary lemmas -/

theorem popKey_fst_eq_none_iff (ws : List (String × WorkerHandle)) (k : String) :
    (popKey ws k).1 = none ↔ k ∉ ws.map Prod.fst := by
  induction ws with
  | nil => simp [popKey]
  | cons e rest ih =>
    by_cases he : e.1 = k
    · simp [popKey, he]
    · simp [popKey, he, ih, Ne.symm he]

theorem popKey_snd_sublist (ws : List (String × WorkerHandle)) (k : String) :
    (popKey ws k).2.Sublist ws := by
  induction ws with
  | nil => simp [popKey]
  | cons e rest ih =>
    by_cases he : e.1 = k
    · simp [popKey, he]
    · simpa [popKey, he] using ih.cons₂ e

theorem popKey_not_mem_of_nodup (ws : List (String × WorkerHandle)) (k : String)
    (h : (ws.map Prod.fst).Nodup) : k ∉ (popKey ws k).2.map Prod.fst := by
  induction ws with
  | nil => simp [popKey]
  | cons e rest ih =>
    simp only [List.map_cons, List.nodup_cons] at h
    by_cases he : e.1 = k
    · simpa [popKey, he] using fun hk => h.1 (he ▸ hk)
    · simp only [popKey, if_neg he, List.map_cons, List.mem_cons]
      rintro (h1 | h2)
      · exact he h1.symm
      · exact ih h.2 h2

theorem containsKey_iff_mem (ws : List (String × WorkerHandle)) (k : String) :
    containsKey ws k = true ↔ k ∈ ws.map Prod.fst := by
  simp [containsKey, List.any_eq_true]

/-! ## Supervisor lifecycle lemmas -/

theorem workers_start_stream (st : ADBServiceState) (d : EmulatorDescriptor) :
    (start_stream st d).workers =
      if containsKey st.workers d.serial then st.workers
      else st.workers ++ [(d.serial, ⟨d, st.nextEventId⟩)] := by
  by_cases h : containsKey st.workers d.serial <;> simp [start_stream, h]

theorem nodup_start_stream (st : ADBServiceState) (d : EmulatorDescriptor)
    (h : keysNodup st) : keysNodup (start_stream st d) := by
  unfold keysNodup at *
  rw [workers_start_stream]
  by_cases hc : containsKey st.workers d.serial
  · simpa [hc] using h
  · have hm : d.serial ∉ st.workers.map Prod.fst := fun hmem =>
      hc ((containsKey_iff_mem _ _).mpr hmem)
    rw [if_neg hc, List.map_append]
    refine List.nodup_append.mpr ⟨h, ?_, ?_⟩
    · simp
    · intro a ha hb
      simp only [List.map_cons, List.map_nil, List.mem_singleton] at hb
      subst hb
      exact hm ha

theorem nodup_stop_stream (st : ADBServiceState) (serial : String) (ended : Bool)
    (h : keysNodup st) : keysNodup (stop_stream st serial ended) := by
  unfold keysNodup at *
  unfold stop_stream
  rcases hp : popKey st.workers serial with ⟨h?, rest⟩
  have hsub : rest.Sublist st.workers := by
    have := popKey_snd_sublist st.workers serial
    rwa [hp] at this
  cases h? with
  | none => exact h
  | some hd => exact List.Nodup.sublist (hsub.map Prod.fst) h

theorem stop_fold_workers_empty (ended : String → Bool) :
    ∀ (ws : List (String × WorkerHandle)) (st : ADBServiceState), st.workers = ws →
      ((ws.map Prod.fst).foldl (fun s serial => stop_stream s serial (ended serial)) st).workers
        = [] := by
  intro ws
  induction ws with
  | nil => intro st hst; simpa using hst
  | cons e rest ih =>
    intro st hst
    have hpop : popKey st.workers e.1 = (some e.2, rest) := by
      rw [hst]; simp [popKey]
    have hstep : (stop_stream st e.1 (ended e.1)).workers = rest := by
      unfold stop_stream
      rw [hpop]
    simp only [List.map_cons, List.foldl_cons]
    exact ih _ hstep

theorem start_stream_noop_of_containsKey (st : ADBServiceState) (d : EmulatorDescriptor)
    (h : containsKey st.workers d.serial = true) : start_stream st d = st := by
  unfold start_stream
  rw [if_pos h]

theorem nodup_stop_all (st : ADBServiceState) (ended : String → Bool) :
    keysNodup (stop_all st ended) := by
  unfold keysNodup
  rw [stop_all, stop_fold_workers_empty ended st.workers st rfl]
  simp

theorem nodup_runOps : ∀ (ops : List SupOp) (st : ADBServiceState),
    keysNodup st → keysNodup (runOps st ops) := by
  intro ops
  induction ops with
  | nil => intro st h; exact h
  | cons op rest ih =>
    intro st h
    rw [runOps, List.foldl_cons]
    refine ih _ ?_
    cases op with
    | start d => exact nodup_start_stream st d h
    | stop serial ended => exact nodup_stop_stream st serial ended h
    | stopAll ended => exact nodup_stop_all st ended

/-! ## Claim theorems: supervisor lifecycle -/

/-- C4: `start_stream` is idempotent and preserves the
at-most-one-worker-per-serial invariant: a start for an already tracked
serial changes nothing; two consecutive starts for the same descriptor
leave exactly one handle for that serial; and every state reachable from
the initial state by lifecycle operations maps each serial to at most
one handle (its tracked serials are duplicate-free). -/
theorem start_stream_idempotent_and_invariant :
    (∀ (st : ADBServiceState) (d : EmulatorDescriptor),
        containsKey st.workers d.serial = true → start_stream st d = st)
    ∧ (∀ (st : ADBServiceState) (d : EmulatorDescriptor), keysNodup st →
        (active_serials (start_stream (start_stream st d) d)).count d.serial = 1)
    ∧ (∀ ops : List SupOp, keysNodup (runOps initState ops)) := by
  refine ⟨?_, ?_, ?_⟩
  · intro st d h
    exact start_stream_noop_of_containsKey st d h
  · intro st d h
    by_cases hc : containsKey st.workers d.serial
    · have hst : start_stream st d = st := start_stream_noop_of_containsKey st d hc
      rw [hst, hst]
      exact List.count_eq_one_of_mem h ((containsKey_iff_mem _ _).mp hc)
    · have hm : d.serial ∉ st.workers.map Prod.fst := fun hmem =>
        hc ((containsKey_iff_mem _ _).mpr hmem)
      have h1 : (start_stream st d).workers =
          st.workers ++ [(d.serial, ⟨d, st.nextEventId⟩)] := by
        rw [workers_start_stream, if_neg hc]
      have hc2 : containsKey (start_stream st d).workers d.serial = true := by
        refine (containsKey_iff_mem _ _).mpr ?_
        rw [h1, List.map_append]
        simp
      have h2 : start_stream (start_stream st d) d = start_stream st d :=
        start_stream_noop_of_containsKey _ d hc2
      rw [h2]
      unfold active_serials
      rw [h1, List.map_append, List.count_append]
      rw [List.count_eq_zero.mpr hm]
      simp
  · intro ops
    refine nodup_runOps ops initState ?_
    simp [keysNodup, initState]

/-- C4 witness: two starts for `emulator-5554` from the fresh state leave
exactly one handle for it, and a concrete operation sequence keeps the
serial list duplicate-free. -/
theorem start_stream_idempotent_and_invariant_witness :
    start_stream (start_stream initState ⟨"emulator-5554", 5554⟩) ⟨"emulator-5554", 5554⟩
      = start_stream initState ⟨"emulator-5554", 5554⟩
    ∧ (active_serials
        (start_stream (start_stream initState ⟨"emulator-5554", 5554⟩)
          ⟨"emulator-5554", 5554⟩)).count "emulator-5554" = 1
    ∧ keysNodup (runOps initState
        [.start ⟨"emulator-5554", 5554⟩, .start ⟨"emulator-5556", 5556⟩,
         .stop "emulator-5554" true]) :=
  ⟨start_stream_idempotent_and_invariant.1 _ _ (by decide),
   start_stream_idempotent_and_invariant.2.1 initState ⟨"emulator-5554", 5554⟩
     (by simp [keysNodup, initState]),
   start_stream_idempotent_and_invariant.2.2 _⟩

/-- C8: after `stop_all`, `active_serials` is empty, whatever streams had
been started before (any supervisor state, any join outcomes). -/
theorem stop_all_clears_active_serials :
    ∀ (st : ADBServiceState) (ended : String → Bool),
      active_serials (stop_all st ended) = [] := by
  intro st ended
  unfold active_serials
  rw [stop_all, stop_fold_workers_empty ended st.workers st rfl]
  simp

/-- C9: `stop_stream` on a serial that is not tracked is a no-op: the
whole supervisor state (worker mapping, frame queue, interval, events)
is returned unchanged and nothing fails. -/
theorem stop_stream_unknown_serial_noop :
    ∀ (st : ADBServiceState) (serial : String) (ended : Bool),
      containsKey st.workers serial = false → stop_stream st serial ended = st := by
  intro st serial ended h
  have hm : serial ∉ st.workers.map Prod.fst := by
    intro hmem
    rw [(containsKey_iff_mem _ _).mpr hmem] at h
    simp at h
  have hp : (popKey st.workers serial).1 = none :=
    (popKey_fst_eq_none_iff _ _).mpr hm
  unfold stop_stream
  rcases hpk : popKey st.workers serial with ⟨h?, rest⟩
  rw [hpk] at hp
  cases h? with
  | none => rfl
  | some hd => exact absurd hp (by simp)

/-- C9 witness: stopping `emulator-9999` on a state that tracks only
`emulator-5554` changes nothing. -/
theorem stop_stream_unknown_serial_noop_witness :
    stop_stream (start_stream initState ⟨"emulator-5554", 5554⟩) "emulator-9999" true
      = start_stream initState ⟨"emulator-5554", 5554⟩ :=
  stop_stream_unknown_serial_noop _ _ _ (by decide)

/-- C10: `stop_stream` removes the serial from the worker mapping before
any waiting happens, so afterwards `active_serials` no longer contains
it — independently of whether the worker's thread ended within the
join's grace period (the `ended` flag). -/
theorem stop_stream_removes_serial :
    ∀ (st : ADBServiceState) (serial : String) (ended : Bool), keysNodup st →
      serial ∉ active_serials (stop_stream st serial ended) := by
  intro st serial ended h
  unfold active_serials stop_stream
  rcases hpk : popKey st.workers serial with ⟨h?, rest⟩
  cases h? with
  | none =>
    have hp : (popKey st.workers serial).1 = none := by rw [hpk]
    exact (popKey_fst_eq_none_iff _ _).mp hp
  | some hd =>
    have hrest : rest = (popKey st.workers serial).2 := by rw [hpk]
    have := popKey_not_mem_of_nodup st.workers serial h
    rw [← hrest] at this
    exact this

/-- C10 witness: stopping `emulator-5554` on a state tracking it leaves
it out of the active serials, for both join outcomes. -/
theorem stop_stream_removes_serial_witness :
    "emulator-5554" ∉ active_serials
      (stop_stream (start_stream initState ⟨"emulator-5554", 5554⟩) "emulator-5554" false)
    ∧ "emulator-5554" ∉ active_serials
      (stop_stream (start_stream initState ⟨"emulator-5554", 5554⟩) "emulator-5554" true) :=
  ⟨stop_stream_removes_serial _ _ _ (by simp [keysNodup]; decide),
   stop_stream_removes_serial _ _ _ (by simp [keysNodup]; decide)⟩

/-! ## Claim theorems: the capture worker loop -/

theorem consEff_isRaised (e : WorkerEffect) (o : WorkerOutcome) :
    (o.consEff e).isRaised = o.isRaised := by
  cases o <;> rfl

/-- C7: once the stop event is observed at the top of the loop, the
worker makes no further remote call, records no further effect, and the
execution unit exits. -/
theorem worker_exits_on_stop :
    ∀ (stopSet : Nat → Bool) (runs : Nat → Except Unit RunResult) (fuel i : Nat),
      stopSet i = true → frame_worker stopSet runs (fuel + 1) i = .exited [] := by
  intro stopSet runs fuel i h
  unfold frame_worker
  rw [if_pos h]

/-- C7 witness: a worker whose stop event is set from the start exits at
once with an empty effect trace. -/
theorem worker_exits_on_stop_witness :
    frame_worker (fun _ => true) (fun _ => .ok ⟨"cmd", [], [], 0⟩) 5 0 = .exited [] :=
  worker_exits_on_stop _ _ 4 0 rfl

/-- C3 (amended): every capture failure that the executor reports by
returning a `RunResult` — non-zero exit or empty stdout — is logged and
absorbed inside the loop body, and the loop proceeds to the next
iteration for the same device; as long as every `ssh_session.run` call
returns (rather than raising), no fault escapes the worker loop.  (The
original claim extends this to an executor that raises; the
counterexample shows that such a fault does escape.) -/
theorem worker_absorbs_returned_failures :
    (∀ (stopSet : Nat → Bool) (runs : Nat → Except Unit RunResult),
        (∀ j, ∃ r, runs j = .ok r) →
        ∀ fuel i, (frame_worker stopSet runs fuel i).isRaised = false)
    ∧ (∀ (stopSet : Nat → Bool) (runs : Nat → Except Unit RunResult) (fuel i : Nat)
        (r : RunResult), stopSet i = false → runs i = .ok r →
        (r.ok && !r.stdout.isEmpty) = false →
        frame_worker stopSet runs (fuel + 1) i =
          (frame_worker stopSet runs fuel (i + 1)).consEff (.logged r.stderr)) := by
  constructor
  · intro stopSet runs htotal fuel
    induction fuel with
    | zero => intro i; rfl
    | succ n ih =>
      intro i
      unfold frame_worker
      by_cases hs : stopSet i
      · rw [if_pos hs]; rfl
      · rw [if_neg hs]
        obtain ⟨r, hr⟩ := htotal i
        rw [hr]
        rw [consEff_isRaised]
        exact ih (i + 1)
  · intro stopSet runs fuel i r hs hr hfail
    have hiter : frameWorkerIter r = .logged r.stderr := by
      unfold frameWorkerIter
      rw [hfail]
      rfl
    conv_lhs => unfold frame_worker
    rw [if_neg (by simp [hs]), hr]
    show (frame_worker stopSet runs fuel (i + 1)).consEff (frameWorkerIter r) = _
    rw [hiter]

/-- C3 witness: with an executor that always returns a failing
`RunResult`, the loop never raises, and one failing iteration logs the
stderr and continues into the next iteration. -/
theorem worker_absorbs_returned_failures_witness :
    (frame_worker (fun _ => false) (fun _ => .ok ⟨"cmd", [], [70], 1⟩) 3 0).isRaised = false
    ∧ frame_worker (fun _ => false) (fun _ => .ok ⟨"cmd", [], [70], 1⟩) 1 0 =
        (frame_worker (fun _ => false) (fun _ => .ok ⟨"cmd", [], [70], 1⟩) 0 1).consEff
          (.logged [70]) :=
  ⟨worker_absorbs_returned_failures.1 _ _ (fun _ => ⟨_, rfl⟩) 3 0,
   worker_absorbs_returned_failures.2 _ _ 0 0 _ rfl rfl (by decide)⟩

/-- C3 counterexample: when `ssh_session.run` itself raises (the
"executor fails to return cleanly" case of the claim), nothing in
`_frame_worker` catches it: the fault escapes the loop instead of being
logged and absorbed. -/
theorem worker_raise_escapes_counterexample :
    frame_worker (fun _ => false) (fun _ => .error ()) 1 0 = .raised []
    ∧ (frame_worker (fun _ => false) (fun _ => .error ()) 1 0).isRaised = true := by
  constructor <;> rfl

/-! ## Newline-normalization lemmas -/

theorem two_mul_countCRCRLF_le (l : List Nat) : 2 * countCRCRLF l ≤ l.length := by
  induction l using countCRCRLF.induct with
  | case1 => simp [countCRCRLF]
  | case2 b => simp [countCRCRLF]
  | case3 b c => simp [countCRCRLF]
  | case4 b c d rest h ih =>
    simp only [countCRCRLF, if_pos h, List.length_cons]
    omega
  | case5 b c d rest h ih =>
    simp only [countCRCRLF, if_neg h, List.length_cons] at ih ⊢
    omega

theorem replaceCRCRLF_eq_self_of_no_occ (l : List Nat)
    (h : ¬ ([13, 13, 10] <:+: l)) : replaceCRCRLF l = l := by
  induction l using replaceCRCRLF.induct with
  | case1 => rfl
  | case2 b => rfl
  | case3 b c => rfl
  | case4 b c d rest hcond ih =>
    exfalso
    obtain ⟨h1, h2, h3⟩ := hcond
    subst h1; subst h2; subst h3
    exact h (List.IsPrefix.isInfix ⟨rest, rfl⟩)
  | case5 b c d rest hcond ih =>
    have ht : ¬ ([13, 13, 10] <:+: (c :: d :: rest)) := fun hx =>
      h (List.infix_cons hx)
    simp only [replaceCRCRLF, if_neg hcond]
    rw [ih ht]

theorem replaceCRCRLF_concat (l₁ : List Nat) (h : ¬ ([13, 13, 10] <:+: l₁)) :
    ∀ l₂, replaceCRCRLF (l₁ ++ 13 :: 13 :: 10 :: l₂) = l₁ ++ 10 :: replaceCRCRLF l₂ := by
  induction l₁ with
  | nil => intro l₂; simp [replaceCRCRLF]
  | cons a t ih =>
    intro l₂
    have ht : ¬ ([13, 13, 10] <:+: t) := fun hx => h (List.infix_cons hx)
    rcases t with _ | ⟨b, t2⟩
    · simp [replaceCRCRLF]
    · rcases t2 with _ | ⟨c, t3⟩
      · simp [replaceCRCRLF]
      · by_cases habc : a = 13 ∧ b = 13 ∧ c = 10
        · exfalso
          obtain ⟨h1, h2, h3⟩ := habc
          subst h1; subst h2; subst h3
          exact h (List.IsPrefix.isInfix ⟨t3, rfl⟩)
        · have hih := ih ht l₂
          simp only [List.cons_append] at hih ⊢
          simp only [replaceCRCRLF, if_neg habc]
          rw [hih]

theorem replaceCRCRLF_length (l : List Nat) :
    (replaceCRCRLF l).length = l.length - 2 * countCRCRLF l := by
  induction l using replaceCRCRLF.induct with
  | case1 => rfl
  | case2 b => rfl
  | case3 b c => rfl
  | case4 b c d rest h ih =>
    have hle := two_mul_countCRCRLF_le rest
    simp only [replaceCRCRLF, countCRCRLF, if_pos h, List.length_cons]
    omega
  | case5 b c d rest h ih =>
    have hle := two_mul_countCRCRLF_le (c :: d :: rest)
    simp only [replaceCRCRLF, countCRCRLF, if_neg h, List.length_cons] at *
    omega

/-- C5: the normalization applied to a raw capture payload before a
`FrameEvent` is built collapses every CR CR LF occurrence to a single
LF: payloads without an occurrence are unchanged; an occurrence after an
occurrence-free prefix becomes that prefix, one LF, and the normalized
remainder; the length drops by two per occurrence; and a successful
capture queues exactly the normalized payload. -/
theorem crcrlf_normalization :
    (∀ l : List Nat, ¬ ([13, 13, 10] <:+: l) → replaceCRCRLF l = l)
    ∧ (∀ (l₁ l₂ : List Nat), ¬ ([13, 13, 10] <:+: l₁) →
        replaceCRCRLF (l₁ ++ 13 :: 13 :: 10 :: l₂) = l₁ ++ 10 :: replaceCRCRLF l₂)
    ∧ (∀ l : List Nat, (replaceCRCRLF l).length = l.length - 2 * countCRCRLF l)
    ∧ (∀ r : RunResult, (r.ok && !r.stdout.isEmpty) = true →
        frameWorkerIter r = .frame (replaceCRCRLF r.stdout)) :=
  ⟨replaceCRCRLF_eq_self_of_no_occ,
   fun l₁ l₂ h => replaceCRCRLF_concat l₁ h l₂,
   replaceCRCRLF_length,
   fun r h => by unfold frameWorkerIter; rw [if_pos h]⟩

/-- C5 witness: normalization on concrete payloads, and one successful
capture queuing the normalized bytes. -/
theorem crcrlf_normalization_witness :
    replaceCRCRLF [65, 66] = [65, 66]
    ∧ replaceCRCRLF ([65] ++ 13 :: 13 :: 10 :: [66]) = [65] ++ 10 :: replaceCRCRLF [66]
    ∧ (replaceCRCRLF [13, 13, 10, 13, 13, 10]).length =
        6 - 2 * countCRCRLF [13, 13, 10, 13, 13, 10]
    ∧ frameWorkerIter ⟨"cmd", [13, 13, 10], [], 0⟩ = .frame [10] :=
  ⟨crcrlf_normalization.1 _ (by decide),
   crcrlf_normalization.2.1 [65] [66] (by decide),
   crcrlf_normalization.2.2.1 _,
   crcrlf_normalization.2.2.2 _ (by decide)⟩

/-! ## Port-derivation lemmas -/

theorem splitDashOnceAux_getLastD (d : String) (cs : List Char) :
    ∀ acc : List Char,
      (splitDashOnceAux cs acc).getLastD d =
        match cs.dropWhile (fun c => c != '-') with
        | [] => String.mk (acc.reverse ++ cs)
        | _ :: t => String.mk t := by
  induction cs with
  | nil => intro acc; simp [splitDashOnceAux]
  | cons c rest ih =>
    intro acc
    by_cases hc : c = '-'
    · subst hc
      simp [splitDashOnceAux, List.dropWhile_cons]
    · have hcb : (c != '-') = true := by simp [hc]
      simp only [splitDashOnceAux, if_neg hc, List.dropWhile_cons, hcb, if_true]
      rw [ih (c :: acc)]
      rcases hdw : rest.dropWhile (fun x => x != '-') with _ | ⟨x, t⟩
      · simp
      · simp

theorem serial_to_port_spec_equiv (s : String) :
    serial_to_port s =
      match pyIntOfString? (specSuffixAfterFirstDash s) with
      | some n => n
      | none => -1 := by
  unfold serial_to_port pySplitDashOnce specSuffixAfterFirstDash
  rw [splitDashOnceAux_getLastD]
  rcases hdw : s.toList.dropWhile (fun c => c != '-') with _ | ⟨x, t⟩
  · simp only [hdw, List.reverse_nil, List.nil_append]
    rfl
  · simp only [hdw]

/-- C6: port derivation is total and never raises: it parses the
substring after the first `-` of the serial as a Python integer,
yielding that value on success and the sentinel -1 on failure;
`emulator-5554` maps to 5554 and `emulator-abc` to -1. -/
theorem serial_to_port_total :
    (∀ s : String, serial_to_port s =
        match pyIntOfString? (specSuffixAfterFirstDash s) with
        | some n => n
        | none => -1)
    ∧ serial_to_port "emulator-5554" = 5554
    ∧ serial_to_port "emulator-abc" = -1 :=
  ⟨serial_to_port_spec_equiv, by decide, by decide⟩

/-! ## Tokenization lemmas

`str.split()` ignores leading and trailing whitespace, so splitting a
stripped line yields the same tokens as splitting the raw line; and
every token is an infix of the split string. -/

theorem splitWsAux_all_space :
    ∀ ws : List Char, (∀ c ∈ ws, pyIsSpace c = true) →
      ∀ acc : List Char, splitWsAux ws acc = if acc = [] then [] else [acc.reverse] := by
  intro ws
  induction ws with
  | nil => intro _ acc; rfl
  | cons w ws' ih =>
    intro h acc
    have hw : pyIsSpace w = true := h w (by simp)
    have h' : ∀ c ∈ ws', pyIsSpace c = true := fun c hc => h c (by simp [hc])
    by_cases hacc : acc = []
    · subst hacc
      simp only [splitWsAux, hw, if_true]
      rw [ih h' []]
      rfl
    · simp only [splitWsAux, hw, if_true, if_neg hacc]
      rw [ih h' []]
      rfl

theorem splitWsAux_append_space :
    ∀ cs ws : List Char, (∀ c ∈ ws, pyIsSpace c = true) →
      ∀ acc, splitWsAux (cs ++ ws) acc = splitWsAux cs acc := by
  intro cs
  induction cs with
  | nil =>
    intro ws h acc
    rw [List.nil_append, splitWsAux_all_space ws h acc]
    rfl
  | cons c cs' ih =>
    intro ws h acc
    simp only [List.cons_append, splitWsAux, List.append_eq]
    by_cases hsp : pyIsSpace c
    · rw [if_pos hsp, if_pos hsp]
      by_cases hacc : acc = []
      · rw [if_pos hacc, if_pos hacc, ih ws h []]
      · rw [if_neg hacc, if_neg hacc, ih ws h []]
    · rw [if_neg hsp, if_neg hsp, ih ws h (c :: acc)]

theorem splitWsAux_space_append :
    ∀ ws : List Char, (∀ c ∈ ws, pyIsSpace c = true) →
      ∀ cs, splitWsAux (ws ++ cs) [] = splitWsAux cs [] := by
  intro ws
  induction ws with
  | nil => intro _ cs; rfl
  | cons w ws' ih =>
    intro h cs
    have hw : pyIsSpace w = true := h w (by simp)
    simp only [List.cons_append, splitWsAux, hw, if_true, List.append_eq]
    exact ih (fun c hc => h c (by simp [hc])) cs

theorem pySplit_pyStrip (s : String) : pySplit (pyStrip s) = pySplit s := by
  show (splitWsAux
      (((s.toList.dropWhile pyIsSpace).reverse.dropWhile pyIsSpace).reverse) []).map
        String.mk
    = (splitWsAux s.toList []).map String.mk
  have hA : splitWsAux s.toList [] = splitWsAux (s.toList.dropWhile pyIsSpace) [] := by
    conv_lhs => rw [← List.takeWhile_append_dropWhile (p := pyIsSpace) (l := s.toList)]
    exact splitWsAux_space_append _ (fun c hc => List.mem_takeWhile_imp hc) _
  have ht : s.toList.dropWhile pyIsSpace =
      ((s.toList.dropWhile pyIsSpace).reverse.dropWhile pyIsSpace).reverse ++
        ((s.toList.dropWhile pyIsSpace).reverse.takeWhile pyIsSpace).reverse := by
    conv_lhs =>
      rw [← List.reverse_reverse (s.toList.dropWhile pyIsSpace),
        ← List.takeWhile_append_dropWhile (p := pyIsSpace)
          (l := (s.toList.dropWhile pyIsSpace).reverse)]
    rw [List.reverse_append]
  have hB : splitWsAux (s.toList.dropWhile pyIsSpace) [] =
      splitWsAux (((s.toList.dropWhile pyIsSpace).reverse.dropWhile pyIsSpace).reverse) [] := by
    conv_lhs => rw [ht]
    exact splitWsAux_append_space _ _
      (fun c hc => List.mem_takeWhile_imp (List.mem_reverse.mp hc)) []
  rw [← hB, ← hA]

theorem infix_of_mem_splitWsAux :
    ∀ (cs acc tk : List Char), tk ∈ splitWsAux cs acc → tk <:+: (acc.reverse ++ cs) := by
  intro cs
  induction cs with
  | nil =>
    intro acc tk h
    by_cases hacc : acc = []
    · subst hacc
      simp [splitWsAux] at h
    · rw [splitWsAux, if_neg hacc, List.mem_singleton] at h
      subst h
      rw [List.append_nil]
  | cons c cs' ih =>
    intro acc tk h
    rw [splitWsAux] at h
    by_cases hsp : pyIsSpace c
    · rw [if_pos hsp] at h
      have hlift : tk <:+: cs' → tk <:+: acc.reverse ++ c :: cs' := by
        intro hx
        refine hx.trans ?_
        rw [← List.singleton_append, ← List.append_assoc]
        exact (List.suffix_append _ _).isInfix
      by_cases hacc : acc = []
      · rw [if_pos hacc] at h
        have := ih [] tk h
        rw [List.reverse_nil, List.nil_append] at this
        exact hlift this
      · rw [if_neg hacc, List.mem_cons] at h
        rcases h with h | h
        · subst h
          exact (List.prefix_append _ _).isInfix
        · have := ih [] tk h
          rw [List.reverse_nil, List.nil_append] at this
          exact hlift this
    · rw [if_neg hsp] at h
      have := ih (c :: acc) tk h
      rw [List.reverse_cons, List.append_assoc, List.singleton_append] at this
      exact this

theorem infix_of_mem_pySplit (s t : String) (h : t ∈ pySplit s) :
    t.toList <:+: s.toList := by
  unfold pySplit at h
  rcases List.mem_map.mp h with ⟨tk, htk, rfl⟩
  have := infix_of_mem_splitWsAux s.toList [] tk htk
  rw [List.reverse_nil, List.nil_append] at this
  exact this

/-! ## Listing-parser lemmas -/

theorem specValidLine_nil (line : String) (hsp : pySplit line = []) :
    specValidLine line = none := by
  unfold specValidLine
  rw [hsp]

theorem specValidLine_single (line s1 : String) (hsp : pySplit line = [s1]) :
    specValidLine line = none := by
  unfold specValidLine
  rw [hsp]

theorem specValidLine_many (line s1 s2 s3 : String) (r : List String)
    (hsp : pySplit line = s1 :: s2 :: s3 :: r) :
    specValidLine line = none := by
  unfold specValidLine
  rw [hsp]

theorem specValidLine_pair (line s1 s2 : String) (hsp : pySplit line = [s1, s2]) :
    specValidLine line =
      if pyStartsWith s1 "emulator-" && s2 == "device" then
        some ⟨s1, serial_to_port s1⟩
      else none := by
  unfold specValidLine
  rw [hsp]

theorem parseDeviceLine_spec (line : String) (d? : Option EmulatorDescriptor)
    (h : parseDeviceLine line = .ok d?) : d? = specValidLine line := by
  have hps : pySplit (pyStrip line) = pySplit line := pySplit_pyStrip line
  simp only [parseDeviceLine] at h
  by_cases h0 : pyStrip line = ""
  · rw [if_pos h0] at h
    obtain rfl : d? = none := (Except.ok.inj h).symm
    rw [specValidLine_nil line (by rw [← hps, h0]; rfl)]
  · rw [if_neg h0] at h
    by_cases h1 : pyContains (pyStrip line) "device" = true
    · rw [if_neg (fun hc => hc h1)] at h
      rcases hsp : pySplit (pyStrip line) with _ | ⟨s1, _ | ⟨s2, _ | ⟨s3, r⟩⟩⟩
      · rw [hsp] at h
        exact absurd h (by simp)
      · rw [hsp] at h
        exact absurd h (by simp)
      · rw [hsp] at h
        have h' : (if ¬ pyStartsWith s1 "emulator-" = true ∨ s2 ≠ "device" then
              (Except.ok none : Except Unit (Option EmulatorDescriptor))
            else .ok (some ⟨s1, serial_to_port s1⟩)) = .ok d? := h
        rw [specValidLine_pair line s1 s2 (by rw [← hps, hsp])]
        by_cases hcond : pyStartsWith s1 "emulator-" = true ∧ s2 = "device"
        · have hifc : ¬ (¬ pyStartsWith s1 "emulator-" = true ∨ s2 ≠ "device") := by
            rintro (ha | hb)
            · exact ha hcond.1
            · exact hb hcond.2
          rw [if_neg hifc] at h'
          obtain rfl : d? = some ⟨s1, serial_to_port s1⟩ := (Except.ok.inj h').symm
          rw [if_pos (by simp [hcond.1, hcond.2])]
        · have hifc : ¬ pyStartsWith s1 "emulator-" = true ∨ s2 ≠ "device" := by
            by_contra hcc
            push_neg at hcc
            exact hcond ⟨hcc.1, hcc.2⟩
          rw [if_pos hifc] at h'
          obtain rfl : d? = none := (Except.ok.inj h').symm
          have hbf : ¬ ((pyStartsWith s1 "emulator-" && s2 == "device") = true) := by
            intro hcc
            have hab : pyStartsWith s1 "emulator-" = true ∧ s2 = "device" := by
              simpa using hcc
            rcases hifc with ha | hb
            · exact ha hab.1
            · exact hb hab.2
          rw [if_neg hbf]
      · rw [hsp] at h
        exact absurd h (by simp)
    · rw [if_pos h1] at h
      obtain rfl : d? = none := (Except.ok.inj h).symm
      rcases hsp : pySplit (pyStrip line) with _ | ⟨s1, _ | ⟨s2, _ | ⟨s3, r⟩⟩⟩
      · rw [specValidLine_nil line (by rw [← hps, hsp])]
      · rw [specValidLine_single line s1 (by rw [← hps, hsp])]
      · rw [specValidLine_pair line s1 s2 (by rw [← hps, hsp])]
        have hbf : ¬ ((pyStartsWith s1 "emulator-" && s2 == "device") = true) := by
          intro hcc
          have hab : pyStartsWith s1 "emulator-" = true ∧ s2 = "device" := by
            simpa using hcc
          obtain ⟨-, hs2⟩ := hab
          subst hs2
          have hmem : ("device" : String) ∈ pySplit (pyStrip line) := by
            rw [hsp]; simp
          exact h1 (decide_eq_true (infix_of_mem_pySplit _ _ hmem))
        rw [if_neg hbf]
      · rw [specValidLine_many line s1 s2 s3 r (by rw [← hps, hsp])]

theorem listEmulatorsGo_spec :
    ∀ (lines : List String) (ds : List EmulatorDescriptor),
      listEmulatorsGo lines = .ok ds → ds = lines.filterMap specValidLine := by
  intro lines
  induction lines with
  | nil =>
    intro ds h
    obtain rfl : ds = [] := (Except.ok.inj h).symm
    rfl
  | cons line rest ih =>
    intro ds h
    rw [listEmulatorsGo] at h
    rcases hp : parseDeviceLine line with e | d?
    · rw [hp] at h
      exact absurd h (by simp [Bind.bind, Except.bind])
    · rw [hp] at h
      rcases hr : listEmulatorsGo rest with e | ds'
      · rw [hr] at h
        cases d? <;> exact absurd h (by simp [Bind.bind, Except.bind])
      · rw [hr] at h
        have hds' := ih ds' hr
        have hd := parseDeviceLine_spec line d? hp
        rw [List.filterMap_cons, ← hd, ← hds']
        cases d? with
        | some d =>
          obtain rfl : ds = d :: ds' := by
            have : Except.ok (ε := Unit) (d :: ds') = .ok ds := h
            exact (Except.ok.inj this).symm
          rfl
        | none =>
          obtain rfl : ds = ds' := by
            have : Except.ok (ε := Unit) ds' = .ok ds := h
            exact (Except.ok.inj this).symm
          rfl

theorem listEmulatorsGo_cons (line : String) (rest : List String) :
    listEmulatorsGo (line :: rest) =
      match parseDeviceLine line with
      | .error e => .error e
      | .ok d? =>
        match listEmulatorsGo rest with
        | .error e => .error e
        | .ok ds =>
          match d? with
          | some d => .ok (d :: ds)
          | none => .ok ds := by
  rw [listEmulatorsGo]
  rcases hp : parseDeviceLine line with e | d?
  · rfl
  · rcases hr : listEmulatorsGo rest with e | ds
    · rfl
    · cases d? <;> rfl

theorem parseDeviceLine_ok_of_shape (line : String)
    (h : pyStrip line = "" ∨ pyContains (pyStrip line) "device" = false ∨
         (pySplit (pyStrip line)).length = 2) :
    ∃ d?, parseDeviceLine line = .ok d? := by
  by_cases h0 : pyStrip line = ""
  · exact ⟨none, by simp only [parseDeviceLine]; rw [if_pos h0]⟩
  · by_cases h1 : pyContains (pyStrip line) "device" = true
    · have hlen : (pySplit (pyStrip line)).length = 2 := by
        rcases h with h | h | h
        · exact absurd h h0
        · exact absurd h1 (by simp [h])
        · exact h
      rcases hsp : pySplit (pyStrip line) with _ | ⟨s1, _ | ⟨s2, _ | ⟨s3, r⟩⟩⟩
      · rw [hsp] at hlen; simp at hlen
      · rw [hsp] at hlen; simp at hlen
      · refine ⟨if ¬ pyStartsWith s1 "emulator-" = true ∨ s2 ≠ "device" then none
            else some ⟨s1, serial_to_port s1⟩, ?_⟩
        simp only [parseDeviceLine]
        rw [if_neg h0, if_neg (fun hc => hc h1), hsp]
        show (if ¬ pyStartsWith s1 "emulator-" = true ∨ s2 ≠ "device" then
            (Except.ok none : Except Unit (Option EmulatorDescriptor))
          else .ok (some ⟨s1, serial_to_port s1⟩)) = _
        by_cases hc : ¬ pyStartsWith s1 "emulator-" = true ∨ s2 ≠ "device"
        · rw [if_pos hc, if_pos hc]
        · rw [if_neg hc, if_neg hc]
      · rw [hsp] at hlen; simp at hlen
    · exact ⟨none, by
        simp only [parseDeviceLine]
        rw [if_neg h0, if_pos h1]⟩

theorem listEmulatorsGo_ok_of_shape :
    ∀ lines : List String,
      (∀ line ∈ lines,
        pyStrip line = "" ∨ pyContains (pyStrip line) "device" = false ∨
        (pySplit (pyStrip line)).length = 2) →
      ∃ ds, listEmulatorsGo lines = .ok ds := by
  intro lines
  induction lines with
  | nil => intro _; exact ⟨[], rfl⟩
  | cons line rest ih =>
    intro h
    obtain ⟨d?, hp⟩ := parseDeviceLine_ok_of_shape line (h line (by simp))
    obtain ⟨ds', hr⟩ := ih (fun l hl => h l (by simp [hl]))
    cases d? with
    | some d =>
      refine ⟨d :: ds', ?_⟩
      rw [listEmulatorsGo_cons, hp, hr]
    | none =>
      refine ⟨ds', ?_⟩
      rw [listEmulatorsGo_cons, hp, hr]

/-! ## Claim theorems: device listing -/

/-- C1 (amended): a line that is blank, or lacks the substring
`"device"`, or has exactly two whitespace-separated tokens, is handled
locally (skipped or parsed) and never raises; when every line after the
header is of one of these shapes, `list_emulators` returns normally.  A
non-blank line that contains `"device"` but does not split into exactly
two tokens makes the two-target unpacking raise out of `list_emulators`
(see the counterexample), so the original "never raises" claim must be
restricted to these shapes. -/
theorem list_emulators_skips_malformed :
    ∀ lines : List String,
      (∀ line ∈ lines.drop 1,
        pyStrip line = "" ∨ pyContains (pyStrip line) "device" = false ∨
        (pySplit (pyStrip line)).length = 2) →
      ∃ ds, list_emulators lines = .ok ds := by
  intro lines h
  exact listEmulatorsGo_ok_of_shape (lines.drop 1) h

/-- C1 witness: a listing with a blank line, an offline device and a
junk line still parses without raising. -/
theorem list_emulators_skips_malformed_witness :
    ∃ ds, list_emulators
      ["List of devices attached", "emulator-5554\tdevice", "",
       "emulator-5556\toffline", "malformed-line"] = .ok ds :=
  list_emulators_skips_malformed _ (by decide)

/-- C1 counterexample: a malformed line containing `"device"` with three
tokens makes `serial, status = line.split()` raise `ValueError`, which
propagates out of `list_emulators` instead of being skipped. -/
theorem list_emulators_malformed_raises :
    list_emulators ["List of devices attached", "emulator-5554 device extra"]
      = .error () := by
  rfl

/-- C2 (amended): whenever `list_emulators` returns (rather than
raising on a malformed line, see the counterexample), the returned
descriptors are exactly those of the lines after the header with two
whitespace-separated tokens, serial prefixed `emulator-` and status
exactly `device`; and the concrete example listing yields exactly the
descriptors for `emulator-5554` (port 5554) and `emulator-5558`
(port 5558). -/
theorem list_emulators_exactly_valid_lines :
    (∀ (lines : List String) (ds : List EmulatorDescriptor),
        list_emulators lines = .ok ds → ds = specDescriptors lines)
    ∧ list_emulators
        ["List of devices attached", "emulator-5554\tdevice",
         "emulator-5556\toffline", "malformed-line", "emulator-5558 device"]
      = .ok [⟨"emulator-5554", 5554⟩, ⟨"emulator-5558", 5558⟩] := by
  constructor
  · intro lines ds h
    exact listEmulatorsGo_spec (lines.drop 1) ds h
  · rfl

/-- C2 witness: the spec-side selector applied to the example listing
gives exactly the two descriptors the code returns. -/
theorem list_emulators_exactly_valid_lines_witness :
    [(⟨"emulator-5554", 5554⟩ : EmulatorDescriptor), ⟨"emulator-5558", 5558⟩] =
      specDescriptors
        ["List of devices attached", "emulator-5554\tdevice",
         "emulator-5556\toffline", "malformed-line", "emulator-5558 device"] :=
  list_emulators_exactly_valid_lines.1 _ _ (by rfl)

/-- C2 counterexample: on a listing with a three-token line containing
`"device"`, `list_emulators` raises, so it does not return a descriptor
for the perfectly valid `emulator-5554` line — refuting the claim that
for every stdout exactly the valid lines yield descriptors. -/
theorem list_emulators_error_loses_valid_line :
    list_emulators ["List of devices attached", "x device y", "emulator-5554\tdevice"]
      = .error () := by
  rfl

end EmulatorWatcher
